import Mathlib

/-!
Verification of the event compiler, playback scheduler and numpad encoder of
the Human-like Roblox Piano Autoplayer (MIDI2Key) repository.

The embedding follows `player.py` and `RobloxMidiConnect_encoder.py`.
Times are modelled as rationals, Python integers as `Int`.  The external
collaborators that the spec declares out of scope (the humanizer and the
pedal-event generator from `analysis.py`) are abstracted as function
parameters, and randomness (`random.random`, `random.choice`) is modelled
by oracle functions indexed by the note position in the compile walk.
The binary heap used by `EventCompiler.compile` is modelled by sorting the
pushed events with the `KeyEvent` comparison order: popping every element
of a binary heap yields a list sorted by that order.
-/

namespace M2K

/-- Action kind of a `KeyEvent` (press / release / pedal). -/
inductive Action where
  | press
  | release
  | pedal
deriving DecidableEq, Repr

/-- Modelled from the spec: the `KeyEvent` value type lives in `models.py`,
which is not under `src/`.  Field layout follows the constructor calls in
`player.py`: `KeyEvent(time, priority, action, key_char, pitch=…, velocity=…)`,
with internal tie-break priority 2 for presses and 4 for releases. -/
structure KeyEvent where
  time : ℚ
  priority : Nat
  action : Action
  key_char : String
  pitch : Option Int
  velocity : Int
deriving DecidableEq, Repr

/-- Modelled from the spec: the comparison order on `KeyEvent` used by the
heap (`models.py` is not under `src/`): events compare by time, with the
internal priority field as tie-break, per the spec's note that event
construction assigns internal tie-break priority values to press/release. -/
def keyEventLE (a b : KeyEvent) : Prop :=
  a.time < b.time ∨ (a.time = b.time ∧ a.priority ≤ b.priority)

instance : DecidableRel keyEventLE := fun a b => by
  unfold keyEventLE; infer_instance

instance : IsTotal KeyEvent keyEventLE where
  total a b := by
    unfold keyEventLE
    rcases lt_trichotomy a.time b.time with h | h | h
    · exact Or.inl (Or.inl h)
    · rcases Nat.le_total a.priority b.priority with hp | hp
      · exact Or.inl (Or.inr ⟨h, hp⟩)
      · exact Or.inr (Or.inr ⟨h.symm, hp⟩)
    · exact Or.inr (Or.inl h)

instance : IsTrans KeyEvent keyEventLE where
  trans a b c hab hbc := by
    unfold keyEventLE at *
    rcases hab with h1 | ⟨e1, p1⟩
    · rcases hbc with h2 | ⟨e2, _⟩
      · exact Or.inl (h1.trans h2)
      · exact Or.inl (e2 ▸ h1)
    · rcases hbc with h2 | ⟨e2, p2⟩
      · exact Or.inl (e1 ▸ h2)
      · exact Or.inr ⟨e1.trans e2, p1.trans p2⟩

/-- A score note (`models.Note`); the compiler reads `pitch`, `velocity`,
`start_time`, `end_time` and `hand`. -/
structure Note where
  pitch : Int
  velocity : Int
  start_time : ℚ
  end_time : ℚ
  hand : String
deriving DecidableEq, Repr

/-- A musical section interval (`models.MusicalSection`): the compiler uses
its half-open `[start_time, end_time)` interval. -/
structure MusicalSection where
  start_time : ℚ
  end_time : ℚ
deriving DecidableEq, Repr

/-- The configuration keys read by `EventCompiler.compile` and `Player`. -/
structure Config where
  vary_timing : Bool
  vary_articulation : Bool
  enable_drift_correction : Bool
  enable_chord_roll : Bool
  enable_tempo_sway : Bool
  enable_mistakes : Bool
deriving DecidableEq, Repr

/-- `any(config.get(k) for k in humanize_keys)` in `compile`. -/
def Config.anyHumanize (c : Config) : Bool :=
  c.vary_timing || c.vary_articulation || c.enable_drift_correction ||
    c.enable_chord_roll || c.enable_tempo_sway

/-- Modelled from the spec: `core.KeyMapper.is_black_key` is not under
`src/`; the spec's black-key classification is the standard one — a pitch is
a black key iff its pitch class (mod 12, Python semantics for negatives) is
C#, D#, F#, G# or A#. -/
def is_black_key (p : Int) : Bool :=
  p % 12 = 1 || p % 12 = 3 || p % 12 = 6 || p % 12 = 8 || p % 12 = 10

/-- The offset list `[-2, -1, 1, 2]` used by `_mistake_pitch` for black keys. -/
def blackOffsets : List Int := [-2, -1, 1, 2]

/-- The white-key candidate list of `_mistake_pitch` for a white key. -/
def whiteCandidates (original : Int) : List Int :=
  [original - 2, original - 1, original + 1, original + 2].filter
    (fun p => ¬ is_black_key p)

/-- `EventCompiler._mistake_pitch`; the `random.choice` draw is modelled by
the oracle index `k`, reduced mod the choice-list length. -/
def mistake_pitch (k : Nat) (original : Int) : Option Int :=
  if is_black_key original then
    some (original + blackOffsets.getD (k % 4) 0)
  else
    let candidates := whiteCandidates original
    if candidates.isEmpty then none
    else some (candidates.getD (k % candidates.length) 0)

/-- The linear section scan of the compile walk (`for i, sec in
enumerate(sections)` with a `break` on the first match), carrying the
running enumeration index `i`. -/
def sectionScan (t : ℚ) : List MusicalSection → Nat → Int
  | [], _ => -1
  | s :: rest, i =>
    if s.start_time ≤ t ∧ t < s.end_time then (i : Int)
    else sectionScan t rest (i + 1)

/-- The containing-section lookup of the compile walk: first section
containing `t` in `[start_time, end_time)`, else the standalone bucket
`-1`. -/
def sectionIdx (sections : List MusicalSection) (t : ℚ) : Int :=
  sectionScan t sections 0

/-- The press/release pair pushed for a note played at its true pitch. -/
def trueEvents (note : Note) : List KeyEvent :=
  [⟨note.start_time, 2, .press, "", some note.pitch, note.velocity⟩,
   ⟨note.end_time, 4, .release, "", some note.pitch, 0⟩]

/-- The press/release pair pushed for a mistake pitch `mp`. -/
def mistakeEvents (note : Note) (mp : Int) : List KeyEvent :=
  [⟨note.start_time, 2, .press, "", some mp, note.velocity⟩,
   ⟨note.end_time, 4, .release, "", some mp, 0⟩]

/-- The events pushed for one note of the compile walk: mistake injection
when enabled, the pitch is new in the section and the probability draw
(`hit`) fires; otherwise the true pitch.  `k` is the `random.choice` oracle. -/
def noteEvents (useMistakes : Bool) (hit : Bool) (k : Nat)
    (played : List Int) (note : Note) : List KeyEvent :=
  if useMistakes && !(decide (note.pitch ∈ played)) && hit then
    match mistake_pitch k note.pitch with
    | some mp => mistakeEvents note mp
    | none => trueEvents note
  else trueEvents note

/-- State of the compile walk: the pitches already played in the current
section, the current section index, and the position counter used to index
the randomness oracles. -/
structure CompState where
  played : List Int
  cur : Int
  n : Nat
deriving DecidableEq, Repr

/-- One step of the compile walk over a note (lines 93–127 of `player.py`):
locate the containing section, clear the played set on a section change,
emit the note's events and record its pitch as played. -/
def walkStep (sections : List MusicalSection) (useMistakes : Bool)
    (hit : Nat → Bool) (choose : Nat → Nat)
    (st : CompState) (note : Note) : CompState × List KeyEvent :=
  let si := sectionIdx sections note.start_time
  let played1 := if si ≠ st.cur then [] else st.played
  let evs := noteEvents useMistakes (hit st.n) (choose st.n) played1 note
  (⟨played1.insert note.pitch, si, st.n + 1⟩, evs)

/-- The full compile walk, accumulating the pushed press/release events. -/
def walkAll (sections : List MusicalSection) (useMistakes : Bool)
    (hit : Nat → Bool) (choose : Nat → Nat) :
    CompState → List Note → List KeyEvent
  | _, [] => []
  | st, note :: rest =>
    let p := walkStep sections useMistakes hit choose st note
    p.2 ++ walkAll sections useMistakes hit choose p.1 rest

/-- `EventCompiler.compile`.  `humanize` abstracts the whole optional
humanization pass (the `Humanizer` collaborator from `analysis.py`, out of
scope per the spec), `pedals` the list returned by
`PedalGenerator.generate_events`, `hit`/`choose` the randomness oracles.
The heap phase is modelled by sorting the pushed events with the `KeyEvent`
comparison order. -/
def compile (humanize : List Note → List Note) (pedals : List KeyEvent)
    (hit : Nat → Bool) (choose : Nat → Nat)
    (notes : List Note) (sections : List MusicalSection) (cfg : Config) :
    List KeyEvent :=
  let work := if cfg.anyHumanize then humanize notes else notes
  let noteEvs := walkAll sections cfg.enable_mistakes hit choose ⟨[], -1, 0⟩ work
  List.insertionSort keyEventLE (noteEvs ++ pedals)

/-! ### Batch execution (`Player._execute_batch`) -/

/-- A call dispatched to the output backend. -/
inductive BackendCall where
  | pedalOn
  | pedalOff
  | noteOff (pitch : Int)
  | noteOn (pitch : Int) (velocity : Int)
deriving DecidableEq, Repr

/-- `Player._execute_batch` as the trace of backend calls it performs.
`stop` is the state of the stop flag (held constant over the batch). -/
def execute_batch (stop : Bool) (events : List KeyEvent) : List BackendCall :=
  if stop then []
  else
    let pedals := events.filter (fun e => e.action = Action.pedal)
    let releases := events.filter (fun e => e.action = Action.release)
    let presses := events.filter (fun e => e.action = Action.press)
    pedals.map (fun e => if e.key_char = "down" then BackendCall.pedalOn
                         else BackendCall.pedalOff)
      ++ releases.filterMap (fun e => e.pitch.map BackendCall.noteOff)
      ++ presses.filterMap (fun e => e.pitch.map
          (fun p => BackendCall.noteOn p e.velocity))

/-- Dispatch rank of a backend call: pedal actions, then releases, then
presses. -/
def callRank : BackendCall → Nat
  | .pedalOn => 0
  | .pedalOff => 0
  | .noteOff _ => 1
  | .noteOn _ _ => 2

/-! ### Player clock state (`Player.toggle_pause`, `Player.seek`) -/

/-- The scalar playback state of `Player` read and written by the control
API and the loop. -/
structure PState where
  events : List KeyEvent
  event_index : Nat
  start_time : ℚ
  total_paused_time : ℚ
  pause_ts : ℚ
  paused : Bool
  pending_shutdown : Bool
deriving DecidableEq, Repr

/-- The playback-time expression of `Player._loop_body`:
`pt = (now - start_time) - total_paused_time`. -/
def pt (now : ℚ) (st : PState) : ℚ :=
  (now - st.start_time) - st.total_paused_time

/-- Python's `bisect.bisect_left` inner loop: binary search for the
leftmost insertion point of `x` in `a[lo:hi]`.  The `while lo < hi` loop
is embedded with a fuel argument; each iteration shrinks `hi - lo`, so
any fuel of at least `hi - lo` computes the loop's exact result. -/
def bisectGo (a : List ℚ) (x : ℚ) : Nat → Nat → Nat → Nat
  | 0, lo, _ => lo
  | fuel + 1, lo, hi =>
    if lo < hi then
      let mid := (lo + hi) / 2
      if a.getD mid 0 < x then bisectGo a x fuel (mid + 1) hi
      else bisectGo a x fuel lo mid
    else lo

/-- `bisect.bisect_left(a, x)`. -/
def bisect_left (a : List ℚ) (x : ℚ) : Nat := bisectGo a x a.length 0 a.length

/-- `Player.seek(target_time)` at wall-clock instant `now`. -/
def seek (now target_time : ℚ) (st : PState) : PState :=
  let times := st.events.map (fun e => e.time)
  let idx := bisect_left times target_time
  if st.paused then
    { st with pending_shutdown := true, event_index := idx,
              total_paused_time := 0, start_time := now - target_time,
              pause_ts := now }
  else
    { st with pending_shutdown := true, event_index := idx,
              start_time := now - target_time - st.total_paused_time }

/-- `Player.toggle_pause` at wall-clock instant `now` (the nested
`seek(0.0)` call reads the same clock instant). -/
def toggle_pause (now : ℚ) (st : PState) : PState :=
  if st.paused then
    let st1 := if st.event_index ≥ st.events.length then seek now 0 st else st
    { st1 with total_paused_time := st1.total_paused_time + (now - st1.pause_ts),
               paused := false }
  else
    { st with pause_ts := now, paused := true, pending_shutdown := true }

/-! ### `Player.play` termination paths -/

/-- The observable actions of `Player.play`: status notifications, the run
of the playback loop, the backend shutdown and the finished signal. -/
inductive PlayAct where
  | statusPlaying
  | statusError (msg : String)
  | loopDone
  | shutdownCall
  | finishedSignal
deriving DecidableEq, Repr

/-- `Player.play` as a trace of its observable actions.  `stopSet` is the
stop flag after the optional countdown; `loopOutcome` abstracts
`_run_loop` (normal return, or an exception with its message).  The `try`
body returns early when the stop flag is set, the `except` arm turns a
loop exception into a diagnostic status, and the `finally` arm always
appends the backend shutdown and the finished signal. -/
def play (stopSet : Bool) (loopOutcome : Except String Unit) : List PlayAct :=
  let body : List PlayAct × Option String :=
    if stopSet then ([], none)
    else
      match loopOutcome with
      | .ok _ => ([PlayAct.statusPlaying, PlayAct.loopDone], none)
      | .error e => ([PlayAct.statusPlaying], some e)
  let caught : List PlayAct :=
    match body.2 with
    | some e => [PlayAct.statusError e]
    | none => []
  body.1 ++ caught ++ [PlayAct.shutdownCall, PlayAct.finishedSignal]

/-! ### Numpad encoder (`RobloxMidiConnect_encoder.py`) -/

/-- `max(0, min(11, v))`: the digit clamp of `encode_and_send_message`. -/
def clamp11 (v : Int) : Int := max 0 (min 11 v)

/-- `max(0, min(127, v))`: the velocity / pedal-value clamp. -/
def clamp127 (v : Int) : Int := max 0 (min 127 v)

/-- The game-defined pedal sentinel. -/
def PEDAL_SENTINEL : Int := 143

/-- `_encode_note_components`: note and velocity decomposed into four
base-12 digits; a note-off sends octave, semitone, 0, 0.  `math.floor`
of a Python float division is floor division on integers (`Int.fdiv`),
and Python `%` with positive modulus is `Int.emod`. -/
def encode_note_components (note velocity : Int) (is_note_off : Bool) :
    Int × Int × Int × Int :=
  let octave := note.fdiv 12
  let note_in_octave := note % 12
  if is_note_off then (octave, note_in_octave, 0, 0)
  else
    let v := clamp127 velocity
    (octave, note_in_octave, v.fdiv 12, v % 12)

/-- The four digits of a `send_pedal` frame for pedal value `value`. -/
def pedal_frame (value : Int) : Int × Int × Int × Int :=
  let v := clamp127 value
  (PEDAL_SENTINEL.fdiv 12, PEDAL_SENTINEL % 12, v.fdiv 12, v % 12)

/-! ### Helper lemmas -/

/-- In a non-decreasing list of rationals, the positions holding a value
below `x` are exactly the positions below the count of such values. -/
lemma sorted_getD_lt_iff (x : ℚ) :
    ∀ (l : List ℚ), List.Pairwise (· ≤ ·) l →
    ∀ i, i < l.length →
      (l.getD i 0 < x ↔ i < l.countP (fun v => decide (v < x))) := by
  intro l
  induction l with
  | nil => intro _ i hi; simp at hi
  | cons hd tl ih =>
    intro hs i hi
    rw [List.pairwise_cons] at hs
    obtain ⟨hhd, htl⟩ := hs
    rw [List.countP_cons]
    by_cases hx : hd < x
    · have h1 : (if decide (hd < x) = true then 1 else 0) = 1 := by simp [hx]
      rw [h1]
      cases i with
      | zero =>
        rw [List.getD_cons_zero]
        exact iff_of_true hx (by omega)
      | succ i =>
        rw [List.getD_cons_succ, ih htl i (by simpa using hi)]
        omega
    · have h1 : (if decide (hd < x) = true then 1 else 0) = 0 := by simp [hx]
      have hct : tl.countP (fun v => decide (v < x)) = 0 := by
        rw [List.countP_eq_zero]
        intro a ha
        simp only [decide_eq_true_eq, not_lt]
        exact le_trans (not_lt.mp hx) (hhd a ha)
      rw [h1, hct]
      cases i with
      | zero =>
        rw [List.getD_cons_zero]
        exact iff_of_false hx (by omega)
      | succ i =>
        rw [List.getD_cons_succ]
        have hi' : i < tl.length := by simpa using hi
        have hmem : tl.getD i 0 ∈ tl := by
          rw [List.getD_eq_getElem tl 0 hi']
          exact List.getElem_mem hi'
        have hx2 : ¬ tl.getD i 0 < x :=
          not_lt.mpr (le_trans (not_lt.mp hx) (hhd _ hmem))
        exact iff_of_false hx2 (by omega)

/-- The `bisect_left` loop, run with enough fuel on a range bracketing the
count of values below `x`, returns that count whenever positions below `x`
form a prefix. -/
lemma bisectGo_eq (a : List ℚ) (x : ℚ)
    (hchar : ∀ i, i < a.length →
      (a.getD i 0 < x ↔ i < a.countP (fun v => decide (v < x)))) :
    ∀ (fuel lo hi : Nat), hi - lo ≤ fuel → hi ≤ a.length →
      lo ≤ a.countP (fun v => decide (v < x)) →
      a.countP (fun v => decide (v < x)) ≤ hi →
      bisectGo a x fuel lo hi = a.countP (fun v => decide (v < x)) := by
  intro fuel
  induction fuel with
  | zero =>
    intro lo hi hf _ hlc hch
    simp only [bisectGo]
    omega
  | succ fuel ih =>
    intro lo hi hf hhi hlc hch
    by_cases hlh : lo < hi
    · have hml : lo ≤ (lo + hi) / 2 :=
        (Nat.le_div_iff_mul_le (by norm_num)).mpr (by omega)
      have hmh : (lo + hi) / 2 < hi :=
        (Nat.div_lt_iff_lt_mul (by norm_num)).mpr (by omega)
      have hmlen : (lo + hi) / 2 < a.length := lt_of_lt_of_le hmh hhi
      simp only [bisectGo, if_pos hlh]
      by_cases hax : a.getD ((lo + hi) / 2) 0 < x
      · rw [if_pos hax]
        exact ih _ _ (by omega) hhi ((hchar _ hmlen).mp hax) hch
      · rw [if_neg hax]
        have : ¬ (lo + hi) / 2 < a.countP (fun v => decide (v < x)) :=
          fun hc => hax ((hchar _ hmlen).mpr hc)
        exact ih _ _ (by omega) (le_of_lt hmlen) hlc (by omega)
    · simp only [bisectGo, if_neg hlh]
      omega

/-- `bisect.bisect_left` on a non-decreasing list returns the count of
elements strictly below the probe. -/
lemma bisect_left_sorted (l : List ℚ) (x : ℚ)
    (hs : List.Pairwise (· ≤ ·) l) :
    bisect_left l x = l.countP (fun v => decide (v < x)) :=
  bisectGo_eq l x (sorted_getD_lt_iff x l hs) l.length 0 l.length
    (by omega) (le_refl _) (Nat.zero_le _) (List.countP_le_length _)

/-- Specification of the linear section scan: either no section contains
`t` and the scan returns `-1`, or it returns the enumeration index of the
first containing section. -/
lemma sectionScan_spec (t : ℚ) :
    ∀ (l : List MusicalSection) (i : Nat),
      (sectionScan t l i = -1 ∧
        ∀ s ∈ l, ¬ (s.start_time ≤ t ∧ t < s.end_time)) ∨
      (∃ k, ∃ _ : k < l.length,
        sectionScan t l i = ((i + k : Nat) : Int) ∧
        ((l.getD k ⟨0, 0⟩).start_time ≤ t ∧ t < (l.getD k ⟨0, 0⟩).end_time) ∧
        ∀ j, j < k →
          ¬ ((l.getD j ⟨0, 0⟩).start_time ≤ t ∧ t < (l.getD j ⟨0, 0⟩).end_time)) := by
  intro l
  induction l with
  | nil => intro i; exact Or.inl ⟨rfl, by simp⟩
  | cons s rest ih =>
    intro i
    by_cases hc : s.start_time ≤ t ∧ t < s.end_time
    · refine Or.inr ⟨0, by simp, ?_, by simpa using hc, by omega⟩
      simp [sectionScan, hc]
    · rcases ih (i + 1) with ⟨heq, hall⟩ | ⟨k, hk, heq, hin, hfirst⟩
      · refine Or.inl ⟨?_, ?_⟩
        · simp [sectionScan, hc, heq]
        · intro u hu
          rcases List.mem_cons.mp hu with rfl | hu
          · exact hc
          · exact hall u hu
      · refine Or.inr ⟨k + 1, by simpa using Nat.succ_lt_succ hk, ?_, ?_, ?_⟩
        · have : sectionScan t (s :: rest) i = sectionScan t rest (i + 1) := by
            simp [sectionScan, hc]
          rw [this, heq]
          congr 1
          omega
        · simpa [List.getD_cons_succ] using hin
        · intro j hj
          cases j with
          | zero => simpa using hc
          | succ j => simpa [List.getD_cons_succ] using hfirst j (by omega)

/-! ### Concrete fixtures used by counterexamples and witnesses -/

/-- Action band of the claimed compile-output tie order:
pedal < release < press. -/
def bandRank : Action → Nat
  | .pedal => 0
  | .release => 1
  | .press => 2

/-- Fixture note: pitch 60 sounding on `[0, 1)`. -/
def noteC3a : Note := ⟨60, 64, 0, 1, ""⟩

/-- Fixture note: pitch 62 sounding on `[1, 2)`. -/
def noteC3b : Note := ⟨62, 64, 1, 2, ""⟩

/-- Configuration with every optional feature disabled. -/
def cfgPlain : Config := ⟨false, false, false, false, false, false⟩

/-- Configuration with only mistake injection enabled. -/
def cfgMist : Config := ⟨false, false, false, false, false, true⟩

/-- Fixture note at the top of the MIDI range: pitch 126 (a black key). -/
def noteC10 : Note := ⟨126, 64, 0, 1, ""⟩

/-- Fixture player state whose event sequence is exhausted (empty), at
playback time 5 when the wall clock reads 5. -/
def pstC4 : PState := ⟨[], 0, 0, 0, 0, false, false⟩

/-- Fixture player state with one pending event and a nonzero start
reference. -/
def pstC4w : PState :=
  ⟨[⟨0, 2, .press, "", some 60, 64⟩], 0, 1, 0, 0, false, false⟩

/-- Fixture player state with a three-event time-sorted sequence. -/
def pstC5 : PState :=
  ⟨[⟨0, 2, .press, "", some 60, 64⟩, ⟨1, 2, .press, "", some 62, 64⟩,
    ⟨2, 4, .release, "", some 60, 0⟩], 0, 0, 0, 0, false, false⟩

/-- Fixture note: pitch 60 starting at time 0, inside the section. -/
def noteC7 : Note := ⟨60, 64, 0, 1, ""⟩

/-! ### Claim theorems -/

/-- Claim C1: for every list of input notes, sections and configuration
(and any behavior of the out-of-scope humanizer, pedal generator and
randomness), the list of `KeyEvent`s returned by `EventCompiler.compile`
has non-decreasing event times: every pair of adjacent events satisfies
`earlier.time ≤ later.time`. -/
theorem compile_times_nondecreasing
    (humanize : List Note → List Note) (pedals : List KeyEvent)
    (hit : Nat → Bool) (choose : Nat → Nat)
    (notes : List Note) (sections : List MusicalSection) (cfg : Config) :
    List.Pairwise (fun a b : KeyEvent => a.time ≤ b.time)
      (compile humanize pedals hit choose notes sections cfg) := by
  unfold compile
  exact List.Pairwise.imp
    (fun hab => by
      rcases hab with h | ⟨h, _⟩
      · exact le_of_lt h
      · exact le_of_eq h)
    (List.sorted_insertionSort keyEventLE _)

/-- Claim C2: with the stop flag not set, `Player._execute_batch`
dispatches all pedal events to the backend before any release, and all
releases before any press; in particular, for a batch holding a release
and a press for the same pitch at equal time, `note_off` is called before
`note_on`. -/
theorem execute_batch_band_order :
    (∀ events : List KeyEvent,
      List.Pairwise (fun c d => callRank c ≤ callRank d)
        (execute_batch false events)) ∧
    execute_batch false
      [⟨1, 4, Action.release, "", some 60, 0⟩,
       ⟨1, 2, Action.press, "", some 60, 64⟩]
      = [BackendCall.noteOff 60, BackendCall.noteOn 60 64] := by
  constructor
  · intro events
    simp only [execute_batch, Bool.false_eq_true, if_false]
    have hA : ∀ c ∈ (events.filter (fun e => e.action = Action.pedal)).map
        (fun e => if e.key_char = "down" then BackendCall.pedalOn
                  else BackendCall.pedalOff),
        callRank c = 0 := by
      intro c hc
      rw [List.mem_map] at hc
      obtain ⟨e, _, rfl⟩ := hc
      by_cases h : e.key_char = "down" <;> simp [h, callRank]
    have hB : ∀ c ∈ (events.filter (fun e => e.action = Action.release)).filterMap
        (fun e => e.pitch.map BackendCall.noteOff), callRank c = 1 := by
      intro c hc
      rw [List.mem_filterMap] at hc
      obtain ⟨e, _, he⟩ := hc
      obtain ⟨p, _, rfl⟩ := Option.map_eq_some'.mp he
      rfl
    have hC : ∀ c ∈ (events.filter (fun e => e.action = Action.press)).filterMap
        (fun e => e.pitch.map (fun p => BackendCall.noteOn p e.velocity)),
        callRank c = 2 := by
      intro c hc
      rw [List.mem_filterMap] at hc
      obtain ⟨e, _, he⟩ := hc
      obtain ⟨p, _, rfl⟩ := Option.map_eq_some'.mp he
      rfl
    rw [List.pairwise_append]
    refine ⟨?_,
            List.pairwise_of_forall_mem_list (fun a ha b hb => ?_),
            fun a ha b hb => ?_⟩
    · rw [List.pairwise_append]
      refine ⟨List.pairwise_of_forall_mem_list (fun a ha b hb => ?_),
              List.pairwise_of_forall_mem_list (fun a ha b hb => ?_),
              fun a ha b hb => ?_⟩
      · rw [hA a ha, hA b hb]
      · rw [hB a ha, hB b hb]
      · rw [hA a ha, hB b hb]; omega
    · rw [hC a ha, hC b hb]
    · rw [hC b hb]
      rcases List.mem_append.mp ha with h | h
      · rw [hA a h]; omega
      · rw [hB a h]; omega
  · decide

/-- Claim C3, counterexample: the compiled sequence does not order
equal-time ties by the band pedal < release < press.  Two plain notes, one
ending exactly when the other starts, compile to a sequence where the
press at time 1 (internal priority 2) precedes the release at time 1
(internal priority 4), violating the claimed release-before-press tie
order. -/
theorem compile_tie_band_order_cex :
    ¬ List.Pairwise
        (fun a b : KeyEvent =>
          a.time = b.time → bandRank a.action ≤ bandRank b.action)
        (compile id [] (fun _ => false) (fun _ => 0) [noteC3a, noteC3b] []
          cfgPlain) := by
  decide

/-- Claim C3, amended: in the sequence returned by `EventCompiler.compile`,
any two events with equal time appear in non-decreasing order of the
internal heap priority (press = 2 before release = 4); the band order
pedal < release < press is imposed at dispatch time by
`Player._execute_batch`, not in the compiled sequence. -/
theorem compile_tie_priority_order
    (humanize : List Note → List Note) (pedals : List KeyEvent)
    (hit : Nat → Bool) (choose : Nat → Nat)
    (notes : List Note) (sections : List MusicalSection) (cfg : Config) :
    List.Pairwise
      (fun a b : KeyEvent => a.time = b.time → a.priority ≤ b.priority)
      (compile humanize pedals hit choose notes sections cfg) := by
  unfold compile
  exact List.Pairwise.imp
    (fun hab => by
      rcases hab with h | ⟨_, h⟩
      · intro he; exact absurd (he ▸ h) (lt_irrefl _)
      · intro _; exact h)
    (List.sorted_insertionSort keyEventLE _)

/-- Claim C4, counterexample: playback time is not continuous across
pause/resume for every `Playing` state.  In a state whose event cursor has
exhausted the (empty) sequence, pausing at wall-clock 5 (playback time 5)
and resuming at wall-clock 6 triggers the implicit `seek(0.0)` inside
`toggle_pause`, so playback time after the resume reads 0, not 5. -/
theorem pause_resume_pt_jump_cex :
    pt 5 pstC4 = 5 ∧
    pt 6 (toggle_pause 6 (toggle_pause 5 pstC4)) = 0 ∧
    pt 6 (toggle_pause 6 (toggle_pause 5 pstC4)) ≠ pt 5 pstC4 := by
  refine ⟨by norm_num [pt, pstC4], ?_, ?_⟩
  · norm_num [pt, toggle_pause, seek, bisect_left, bisectGo, pstC4]
  · norm_num [pt, toggle_pause, seek, bisect_left, bisectGo, pstC4]

/-- Claim C4, amended: for every player state in `Playing` whose event
cursor has not exhausted the sequence, and every pause duration `d ≥ 0`,
pausing via `toggle_pause` and resuming `d` later leaves the computed
playback time at the resume instant equal to the playback time at the
pause instant — no jump and no accumulated drift.  (When the cursor is
past the end, resume instead performs an implicit seek to time zero.) -/
theorem pause_resume_pt_continuous (st : PState) (t0 d : ℚ)
    (hplay : st.paused = false)
    (hcursor : st.event_index < st.events.length)
    (_hd : 0 ≤ d) :
    pt (t0 + d) (toggle_pause (t0 + d) (toggle_pause t0 st)) = pt t0 st := by
  have hnc : ¬ st.event_index ≥ st.events.length := not_le.mpr hcursor
  simp [toggle_pause, hplay, hnc, pt]
  ring

/-- Claim C4 witness: a concrete run of the amended continuity property,
pausing the fixture state at wall-clock 10 and resuming 2 later. -/
theorem pause_resume_pt_continuous_witness :
    pt (10 + 2) (toggle_pause (10 + 2) (toggle_pause 10 pstC4w))
      = pt 10 pstC4w :=
  pause_resume_pt_continuous pstC4w 10 2 (by decide) (by decide)
    (by norm_num)

/-- Claim C5: for every time-sorted event sequence and target time `t`,
`Player.seek t` sets the event cursor to the count of events with time
strictly below `t`, and recomputes the wall-clock reference so that the
playback-time expression evaluates to exactly `t` immediately after the
call, in both the paused and the non-paused branch. -/
theorem seek_cursor_and_pt (st : PState) (now t : ℚ)
    (hs : List.Pairwise (fun a b : KeyEvent => a.time ≤ b.time) st.events) :
    (seek now t st).event_index
        = st.events.countP (fun e => decide (e.time < t)) ∧
    pt now (seek now t st) = t := by
  constructor
  · have hsorted : List.Pairwise (· ≤ ·) (st.events.map (fun e => e.time)) :=
      List.Pairwise.map _ (fun a b h => h) hs
    have hb := bisect_left_sorted _ t hsorted
    rw [List.countP_map] at hb
    unfold seek
    by_cases hp : st.paused
    · simp [hp, hb]
      rfl
    · simp [hp, hb]
      rfl
  · unfold seek pt
    by_cases hp : st.paused
    · simp [hp]
    · simp [hp]
      ring

/-- Claim C5 witness: seeking the three-event fixture to `t = 3/2` puts
the cursor at the count of events before `3/2` and makes playback time
read exactly `3/2`. -/
theorem seek_cursor_and_pt_witness :
    (seek 10 (3 / 2) pstC5).event_index
        = pstC5.events.countP (fun e => decide (e.time < (3 / 2 : ℚ))) ∧
    pt 10 (seek 10 (3 / 2) pstC5) = 3 / 2 :=
  seek_cursor_and_pt pstC5 10 (3 / 2) (by decide)

/-- Claim C6: when mistake injection hits, the substituted pitch follows
`_mistake_pitch`: a black key shifts by an offset drawn from
{−2, −1, +1, +2}; a white key draws from the white-key pitches among
original ± 1, original ± 2; an empty candidate set falls back to the true
pitch; and on a mistake the press/release pair carries only the mistake
pitch, never additionally the intended pitch. -/
theorem mistake_pitch_substitution :
    ∀ (orig : Int) (k : Nat),
      (is_black_key orig = true →
        mistake_pitch k orig = some (orig + blackOffsets.getD (k % 4) 0) ∧
        blackOffsets.getD (k % 4) 0 ∈ blackOffsets) ∧
      (is_black_key orig = false →
        (whiteCandidates orig ≠ [] →
          ∃ p, mistake_pitch k orig = some p ∧ p ∈ whiteCandidates orig) ∧
        (whiteCandidates orig = [] → mistake_pitch k orig = none)) ∧
      (∀ (hit : Bool) (played : List Int) (note : Note) (mp : Int),
        hit = true → note.pitch ∉ played →
        mistake_pitch k note.pitch = some mp →
        noteEvents true hit k played note = mistakeEvents note mp ∧
        ∀ e ∈ mistakeEvents note mp, e.pitch = some mp) ∧
      (∀ (hit : Bool) (played : List Int) (note : Note),
        mistake_pitch k note.pitch = none →
        noteEvents true hit k played note = trueEvents note) := by
  intro orig k
  refine ⟨fun hb => ⟨by simp [mistake_pitch, hb], ?_⟩,
          fun hw => ⟨fun hne => ?_, fun he => ?_⟩,
          fun hit played note mp hhit hnp hmp => ⟨?_, ?_⟩,
          fun hit played note hmp => ?_⟩
  · have hlen : k % 4 < blackOffsets.length := Nat.mod_lt _ (by norm_num)
    rw [List.getD_eq_getElem _ _ hlen]
    exact List.getElem_mem hlen
  · have hnemp : (whiteCandidates orig).isEmpty = false := by
      cases hc : whiteCandidates orig with
      | nil => exact absurd hc hne
      | cons a as => rfl
    have hlen : k % (whiteCandidates orig).length
        < (whiteCandidates orig).length := by
      apply Nat.mod_lt
      cases hc : whiteCandidates orig with
      | nil => exact absurd hc hne
      | cons a as => simp
    refine ⟨(whiteCandidates orig).getD (k % (whiteCandidates orig).length) 0,
            ?_, ?_⟩
    · simp [mistake_pitch, hw, hnemp]
    · rw [List.getD_eq_getElem _ _ hlen]
      exact List.getElem_mem hlen
  · simp [mistake_pitch, hw, he]
  · simp [noteEvents, hhit, hnp, hmp]
  · intro e he
    rcases List.mem_cons.mp he with rfl | he2
    · rfl
    · rcases List.mem_cons.mp he2 with rfl | he3
      · rfl
      · simp at he3
  · by_cases hm : note.pitch ∈ played
    · simp [noteEvents, hm]
    · simp [noteEvents, hm, hmp]

/-- Claim C6 witness: pitch 61 (a black key) with draw index 0 is
substituted by 61 − 2 = 59, an offset from the black-key offset list. -/
theorem mistake_pitch_substitution_witness :
    mistake_pitch 0 61 = some (61 + blackOffsets.getD (0 % 4) 0) ∧
    blackOffsets.getD (0 % 4) 0 ∈ blackOffsets :=
  (mistake_pitch_substitution 61 0).1 (by decide)

/-- Claim C7: in the compile walk, the played-in-section set is cleared
exactly when the containing section index changes, a note whose pitch is
already in the set is never subjected to a mistake draw, every note's
pitch is recorded after processing, and the containing section is found
by a linear first-match scan with half-open containment, yielding the
standalone bucket −1 when no section matches. -/
theorem walk_mistake_once_per_section
    (sections : List MusicalSection) (useM : Bool)
    (hit : Nat → Bool) (choose : Nat → Nat) (st : CompState) (note : Note) :
    (sectionIdx sections note.start_time ≠ st.cur →
      (walkStep sections useM hit choose st note).1.played = [note.pitch]) ∧
    (sectionIdx sections note.start_time = st.cur →
      (walkStep sections useM hit choose st note).1.played
        = st.played.insert note.pitch) ∧
    (walkStep sections useM hit choose st note).1.cur
        = sectionIdx sections note.start_time ∧
    note.pitch ∈ (walkStep sections useM hit choose st note).1.played ∧
    (sectionIdx sections note.start_time = st.cur → note.pitch ∈ st.played →
      (walkStep sections useM hit choose st note).2 = trueEvents note) ∧
    (sectionIdx sections note.start_time = -1 ↔
      ∀ s ∈ sections,
        ¬ (s.start_time ≤ note.start_time ∧ note.start_time < s.end_time)) ∧
    (∀ k : Nat, sectionIdx sections note.start_time = (k : Int) →
      ∃ _ : k < sections.length,
        ((sections.getD k ⟨0, 0⟩).start_time ≤ note.start_time ∧
          note.start_time < (sections.getD k ⟨0, 0⟩).end_time) ∧
        ∀ j, j < k →
          ¬ ((sections.getD j ⟨0, 0⟩).start_time ≤ note.start_time ∧
             note.start_time < (sections.getD j ⟨0, 0⟩).end_time)) := by
  refine ⟨fun hne => ?_, fun heq => ?_, ?_, ?_, fun heq hmem => ?_, ?_,
          fun k hk => ?_⟩
  · simp [walkStep, hne, List.insert]
  · simp [walkStep, heq]
  · simp [walkStep]
  · by_cases hne : sectionIdx sections note.start_time ≠ st.cur
    · simp [walkStep, hne, List.insert]
    · rw [not_not] at hne
      simp only [walkStep, hne]
      simp [List.insert]
      by_cases hm : note.pitch ∈ st.played <;> simp [hm]
  · simp [walkStep, heq, noteEvents, hmem]
  · constructor
    · intro h1
      rcases sectionScan_spec note.start_time sections 0 with
        ⟨_, hall⟩ | ⟨kk, hkk, heq2, _, _⟩
      · exact hall
      · rw [sectionIdx, heq2] at h1
        omega
    · intro hall
      rcases sectionScan_spec note.start_time sections 0 with
        ⟨heq2, _⟩ | ⟨kk, hkk, _, hin, _⟩
      · exact heq2
      · exfalso
        have hmem2 : sections.getD kk ⟨0, 0⟩ ∈ sections := by
          rw [List.getD_eq_getElem _ _ hkk]
          exact List.getElem_mem hkk
        exact hall _ hmem2 hin
  · rcases sectionScan_spec note.start_time sections 0 with
      ⟨heq2, _⟩ | ⟨kk, hkk, heq2, hin, hfirst⟩
    · rw [sectionIdx, heq2] at hk
      omega
    · rw [sectionIdx, heq2] at hk
      have hkeq : kk = k := by omega
      subst hkeq
      exact ⟨hkk, hin, hfirst⟩

/-- Claim C7 witness: a note whose pitch 60 is already in the section's
played set emits its true-pitch events even though the mistake draw would
fire. -/
theorem walk_mistake_once_per_section_witness :
    (walkStep [⟨0, 10⟩] true (fun _ => true) (fun _ => 0)
      ⟨[60], 0, 0⟩ noteC7).2 = trueEvents noteC7 :=
  (walk_mistake_once_per_section [⟨0, 10⟩] true (fun _ => true) (fun _ => 0)
    ⟨[60], 0, 0⟩ noteC7).2.2.2.2.1 (by decide) (by decide)

/-- Claim C8: the numpad frame encoding round-trips — for every pitch and
velocity in [0, 127] the four note-on digits decode back to exactly the
original pair via 12·a+b and 12·c+d, every digit already lies in [0, 11]
so the digit clamp never alters them, a note-off frame sends
(⌊pitch/12⌋, pitch mod 12, 0, 0), and every pedal frame's first two
digits decode to the sentinel 143. -/
theorem numpad_frame_roundtrip :
    (∀ note velocity : Int,
      0 ≤ note → note ≤ 127 → 0 ≤ velocity → velocity ≤ 127 →
      12 * (encode_note_components note velocity false).1
          + (encode_note_components note velocity false).2.1 = note ∧
      12 * (encode_note_components note velocity false).2.2.1
          + (encode_note_components note velocity false).2.2.2 = velocity ∧
      (0 ≤ (encode_note_components note velocity false).1 ∧
        (encode_note_components note velocity false).1 ≤ 11) ∧
      (0 ≤ (encode_note_components note velocity false).2.1 ∧
        (encode_note_components note velocity false).2.1 ≤ 11) ∧
      (0 ≤ (encode_note_components note velocity false).2.2.1 ∧
        (encode_note_components note velocity false).2.2.1 ≤ 11) ∧
      (0 ≤ (encode_note_components note velocity false).2.2.2 ∧
        (encode_note_components note velocity false).2.2.2 ≤ 11) ∧
      (clamp11 (encode_note_components note velocity false).1
          = (encode_note_components note velocity false).1 ∧
        clamp11 (encode_note_components note velocity false).2.1
          = (encode_note_components note velocity false).2.1 ∧
        clamp11 (encode_note_components note velocity false).2.2.1
          = (encode_note_components note velocity false).2.2.1 ∧
        clamp11 (encode_note_components note velocity false).2.2.2
          = (encode_note_components note velocity false).2.2.2) ∧
      encode_note_components note velocity true
        = ((encode_note_components note velocity false).1,
           (encode_note_components note velocity false).2.1, 0, 0)) ∧
    (∀ value : Int,
      12 * (pedal_frame value).1 + (pedal_frame value).2.1
        = PEDAL_SENTINEL) := by
  have hf : ∀ a : Int, a.fdiv 12 = a / 12 :=
    fun a => Int.fdiv_eq_ediv a (by norm_num)
  constructor
  · intro note velocity h1 h2 h3 h4
    have hv : clamp127 velocity = velocity := by
      unfold clamp127
      rw [min_eq_right h4, max_eq_right h3]
    simp only [encode_note_components, hv, hf, clamp11,
               Bool.false_eq_true, if_false, if_true, clamp127]
    refine ⟨by omega, by omega, ⟨by omega, by omega⟩, ⟨by omega, by omega⟩,
            ⟨by omega, by omega⟩, ⟨by omega, by omega⟩,
            ⟨?_, ?_, ?_, ?_⟩, trivial⟩
    · rw [min_eq_right (by omega), max_eq_right (by omega)]
    · rw [min_eq_right (by omega), max_eq_right (by omega)]
    · rw [min_eq_right (by omega), max_eq_right (by omega)]
    · rw [min_eq_right (by omega), max_eq_right (by omega)]
  · intro value
    simp only [pedal_frame, PEDAL_SENTINEL]
    decide

/-- Claim C8 witness: the frame for pitch 60, velocity 64 decodes back to
(60, 64). -/
theorem numpad_frame_roundtrip_witness :
    12 * (encode_note_components 60 64 false).1
        + (encode_note_components 60 64 false).2.1 = 60 ∧
    12 * (encode_note_components 60 64 false).2.2.1
        + (encode_note_components 60 64 false).2.2.2 = 64 :=
  ⟨(numpad_frame_roundtrip.1 60 64 (by decide) (by decide) (by decide)
      (by decide)).1,
   (numpad_frame_roundtrip.1 60 64 (by decide) (by decide) (by decide)
      (by decide)).2.1⟩

/-- Claim C9: on every termination path of `Player.play` — early return on
the stop flag, normal loop completion, or an exception from the loop — the
backend shutdown is invoked exactly once and the completion notification
fires exactly once; a loop exception is caught exactly once, surfaced as a
diagnostic status, and does not propagate (the trace function is total). -/
theorem play_cleanup_exactly_once :
    ∀ (stopSet : Bool) (loopOutcome : Except String Unit),
      (play stopSet loopOutcome).count PlayAct.shutdownCall = 1 ∧
      (play stopSet loopOutcome).count PlayAct.finishedSignal = 1 ∧
      ((play stopSet loopOutcome).countP
          (fun a => match a with
            | PlayAct.statusError _ => true
            | _ => false)
        = if stopSet then 0
          else match loopOutcome with
            | .ok _ => 0
            | .error _ => 1) ∧
      (∀ e, stopSet = false → loopOutcome = Except.error e →
        PlayAct.statusError e ∈ play stopSet loopOutcome) := by
  intro stopSet loopOutcome
  cases stopSet <;> rcases loopOutcome with _ | e <;>
    simp [play, List.count_cons, List.countP_cons, List.count_nil]

/-- Claim C9 witness: a loop that raises with message "boom" yields a
trace carrying the diagnostic status and exactly one backend shutdown. -/
theorem play_cleanup_exactly_once_witness :
    PlayAct.statusError "boom" ∈ play false (Except.error "boom") ∧
    (play false (Except.error "boom")).count PlayAct.shutdownCall = 1 :=
  ⟨(play_cleanup_exactly_once false (Except.error "boom")).2.2.2 "boom"
      rfl rfl,
   (play_cleanup_exactly_once false (Except.error "boom")).1⟩

/-- Claim C10: `_mistake_pitch` applies no pitch-range clamp — every black
key is shifted unconditionally by the drawn offset, so pitch 126 (a black
key inside [0, 127]) with draw +2 yields mistake pitch 128, outside
[0, 127], and `compile` then emits press and release events carrying
pitch 128. -/
theorem mistake_pitch_unclamped :
    (∀ (p : Int) (k : Nat), is_black_key p = true →
      mistake_pitch k p = some (p + blackOffsets.getD (k % 4) 0)) ∧
    is_black_key 126 = true ∧
    (0 ≤ (126 : Int) ∧ (126 : Int) ≤ 127) ∧
    mistake_pitch 3 126 = some 128 ∧
    ¬ ((128 : Int) ≤ 127) ∧
    (⟨0, 2, Action.press, "", some 128, 64⟩ : KeyEvent)
        ∈ compile id [] (fun _ => true) (fun _ => 3) [noteC10] [] cfgMist ∧
    (⟨1, 4, Action.release, "", some 128, 0⟩ : KeyEvent)
        ∈ compile id [] (fun _ => true) (fun _ => 3) [noteC10] [] cfgMist := by
  refine ⟨?_, by decide, by decide, by decide, by decide, by decide,
          by decide⟩
  intro p k hb
  simp [mistake_pitch, hb]

/-- Claim C10 witness: the unconditional black-key shift evaluated at
pitch 126 with draw index 3. -/
theorem mistake_pitch_unclamped_witness :
    mistake_pitch 3 126 = some (126 + blackOffsets.getD (3 % 4) 0) :=
  mistake_pitch_unclamped.1 126 3 (by decide)

end M2K
